import Mathlib

/-!
Shallow embedding of the StackRabbit HTTP front end
(`src/cpp_modules/src/http_server.cpp`): parameter validation
(`getParamsFromRequest` and its helpers), canonical serialization
(`generateRequestString`), the worker pool (`ThreadPool`) as a labelled
transition system, and the per-request handler control flow of `main`.
-/

set_option maxHeartbeats 1000000
set_option maxRecDepth 8192

deriving instance DecidableEq for Except

namespace StackRabbit

/-! ### Decimal rendering, modelling `std::to_string(int)` -/

/-- The decimal digit character for a value below ten. -/
def digitChar : Nat → Char
  | 0 => '0' | 1 => '1' | 2 => '2' | 3 => '3' | 4 => '4'
  | 5 => '5' | 6 => '6' | 7 => '7' | 8 => '8' | 9 => '9'
  | _ => '*'

/-- Fuel-driven digit expansion of a natural number, most significant first. -/
def natDigitsAux : Nat → Nat → List Char
  | 0, _ => []
  | fuel + 1, n =>
    if n < 10 then [digitChar n]
    else natDigitsAux fuel (n / 10) ++ [digitChar (n % 10)]

/-- Decimal digits of a natural number, most significant first. -/
def natDigits (n : Nat) : List Char := natDigitsAux (n + 1) n

/-- Shortest decimal rendering of an integer, modelling `std::to_string` on
a C++ `int` value. -/
def intToString (n : Int) : String :=
  if n < 0 then String.mk ('-' :: natDigits n.natAbs)
  else String.mk (natDigits n.natAbs)

/-! ### `std::stoi`, as called by `getIntParam` -/

/-- A decimal digit character. -/
def isDigitChar (c : Char) : Bool := '0' ≤ c && c ≤ '9'

/-- The whitespace characters skipped by `std::stoi` (via `isspace`). -/
def isSpaceChar (c : Char) : Bool :=
  c = ' ' || c = '\t' || c = '\n' || c = '\x0b' || c = '\x0c' || c = '\r'

/-- Numeric value of a digit string, most significant digit first,
accumulated onto `acc`. -/
def digitsValAux (acc : Nat) : List Char → Nat
  | [] => acc
  | c :: cs => digitsValAux (acc * 10 + (c.toNat - 48)) cs

/-- Numeric value of a digit string, most significant digit first. -/
def digitsVal (cs : List Char) : Nat := digitsValAux 0 cs

/-- Outcome of `std::stoi`: a value, or one of its two exceptions. -/
inductive StoiResult where
  | ok (n : Int)
  | invalidArgument
  | outOfRange
deriving DecidableEq

/-- After the optional sign, `std::stoi` consumes the longest digit run;
no digits at all is `std::invalid_argument`, a value outside the range of
`int` is `std::out_of_range`. -/
def stoiDigits (neg : Bool) (cs : List Char) : StoiResult :=
  let ds := cs.takeWhile isDigitChar
  if ds = [] then .invalidArgument
  else
    let v : Int := (digitsVal ds : Int)
    let v := if neg then -v else v
    if v < -2147483648 ∨ 2147483647 < v then .outOfRange else .ok v

/-- `std::stoi` on a character sequence: skip leading whitespace, read an
optional sign, then the longest digit run (trailing characters are
ignored). -/
def stoiCore (cs0 : List Char) : StoiResult :=
  match cs0.dropWhile isSpaceChar with
  | [] => .invalidArgument
  | c :: rest =>
    if c = '-' then stoiDigits true rest
    else if c = '+' then stoiDigits false rest
    else stoiDigits false (c :: rest)

/-- `std::stoi` on a string. -/
def stoi (s : String) : StoiResult := stoiCore s.data

/-! ### Query parameters and validation -/

/-- A decoded query string: an association list from parameter names to
values, modelling `req.url_params`. -/
def Query := List (String × String)

/-- `req.url_params.get(key)`: the first value bound to `key`, if any. -/
def lookupParam (q : Query) (key : String) : Option String :=
  (List.find? (fun p => p.1 = key) q).map (fun p => p.2)

/-- The exceptions thrown during validation, as typed values.
`runtimeError` carries the literal `std::runtime_error` message from the
source; `stoiInvalid` and `stoiOutOfRange` are the two `std::stoi`
exceptions (whose `what()` text does not name the offending field). -/
inductive ValidationError where
  | runtimeError (msg : String)
  | stoiInvalid
  | stoiOutOfRange
deriving DecidableEq

/-- The `what()` message of a validation exception, as the handler sees it.
For the two `std::stoi` exceptions libstdc++ reports the literal "stoi". -/
def ValidationError.message : ValidationError → String
  | .runtimeError m => m
  | .stoiInvalid => "stoi"
  | .stoiOutOfRange => "stoi"

/-- `getIntParam`: look the key up; absent with a default yields the
default, absent without one throws `Missing required parameter`; present
values go through `std::stoi`. -/
def getIntParam (q : Query) (key : String) (defaultVal : Option Int) :
    Except ValidationError Int :=
  match lookupParam q key with
  | none =>
    match defaultVal with
    | some d => .ok d
    | none => .error (.runtimeError ("Missing required parameter: " ++ key))
  | some v =>
    match stoi v with
    | .ok n => .ok n
    | .invalidArgument => .error .stoiInvalid
    | .outOfRange => .error .stoiOutOfRange

/-- `getStringParam`: look the key up; absent with a default yields the
default, absent without one throws; present values are taken verbatim. -/
def getStringParam (q : Query) (key : String) (defaultVal : Option String) :
    Except ValidationError String :=
  match lookupParam q key with
  | none =>
    match defaultVal with
    | some d => .ok d
    | none => .error (.runtimeError ("Missing required parameter: " ++ key))
  | some v => .ok v

/-- The validated form of a request, mirroring `struct RequestParams`. -/
structure RequestParams where
  boardString : String
  secondBoardString : String
  level : Int
  lines : Int
  currentPiece : Int
  nextPiece : Int
  inputFrameTimeline : String
  playoutCount : Int
  playoutLength : Int
  pruningBreadth : Int
deriving DecidableEq

/-- The second-board section of `getParamsFromRequest`: fetched and
checked when `requireSecondBoard` holds, forced to empty otherwise. -/
def getSecondBoard (q : Query) (requireSecondBoard : Bool) :
    Except ValidationError String :=
  if requireSecondBoard then
    match getStringParam q "secondBoard" none with
    | .error e => .error e
    | .ok sb =>
      if sb.length ≠ 200 then
        .error (.runtimeError "Second board string must be 200 characters long")
      else if sb.data.any (fun c => !(c = '0' || c = '1')) then
        .error (.runtimeError "Second board string must only contain 0s and 1s")
      else .ok sb
  else .ok ""

/-- `getParamsFromRequest`: fetch every parameter (with the source's
defaults), then apply the constraint checks in source order, failing at
the first violation. -/
def getParamsFromRequest (q : Query) (requireSecondBoard : Bool) :
    Except ValidationError RequestParams :=
  match getStringParam q "board" none with
  | .error e => .error e
  | .ok boardString =>
  match getIntParam q "level" (some 18) with
  | .error e => .error e
  | .ok level =>
  match getIntParam q "lines" (some 0) with
  | .error e => .error e
  | .ok lines =>
  match getIntParam q "currentPiece" (some (-1)) with
  | .error e => .error e
  | .ok currentPiece =>
  match getIntParam q "nextPiece" (some (-1)) with
  | .error e => .error e
  | .ok nextPiece =>
  match getStringParam q "inputFrameTimeline" (some "X.") with
  | .error e => .error e
  | .ok inputFrameTimeline =>
  match getIntParam q "playoutCount" (some 343) with
  | .error e => .error e
  | .ok playoutCount =>
  match getIntParam q "playoutLength" (some 3) with
  | .error e => .error e
  | .ok playoutLength =>
  match getIntParam q "pruningBreadth" (some 25) with
  | .error e => .error e
  | .ok pruningBreadth =>
  if boardString.length ≠ 200 then
    .error (.runtimeError "Board string must be 200 characters long")
  else if boardString.data.any (fun c => !(c = '0' || c = '1')) then
    .error (.runtimeError "Board string must only contain 0s and 1s")
  else
  match getSecondBoard q requireSecondBoard with
  | .error e => .error e
  | .ok secondBoardString =>
  if currentPiece < -1 ∨ currentPiece > 6 then
    .error (.runtimeError "Current piece must be between -1 and 6")
  else if nextPiece < -1 ∨ nextPiece > 6 then
    .error (.runtimeError "Next piece must be between -1 and 6")
  else if inputFrameTimeline.data.any (fun c => !(c = 'X' || c = '.')) then
    .error (.runtimeError "inputFrameTimeline must only contain 'X' and '.'")
  else if level < 18 then
    .error (.runtimeError "Level must be 18 or higher")
  else if lines < 0 then
    .error (.runtimeError "Lines must be 0 or higher")
  else if playoutCount < 0 then
    .error (.runtimeError "Playout count must be 0 or higher")
  else if playoutLength < 0 then
    .error (.runtimeError "Playout length must be 0 or higher")
  else if pruningBreadth < 0 then
    .error (.runtimeError "Pruning breadth must be 0 or higher")
  else
    .ok { boardString, secondBoardString, level, lines, currentPiece,
          nextPiece, inputFrameTimeline, playoutCount, playoutLength,
          pruningBreadth }

/-! ### Canonical serialization (`generateRequestString`) -/

/-- `generateRequestString`: the pipe-delimited canonical string handed to
the Engine, each field followed by a `'|'`, `secondBoardString` omitted
when empty. -/
def generateRequestString (p : RequestParams) : String :=
  let s := p.boardString ++ "|"
  let s := if p.secondBoardString ≠ "" then s ++ p.secondBoardString ++ "|" else s
  s ++ intToString p.level ++ "|" ++ intToString p.lines ++ "|"
    ++ intToString p.currentPiece ++ "|" ++ intToString p.nextPiece ++ "|"
    ++ p.inputFrameTimeline ++ "|" ++ intToString p.playoutCount ++ "|"
    ++ intToString p.playoutLength ++ "|" ++ intToString p.pruningBreadth ++ "|"

/-! ### The per-request handler of `main` -/

/-- How the submission and Engine execution surface to the handler:
a result string, a thrown value derived from `std::exception` carrying a
message (this includes the `ThreadPool::enqueue` rejection and any Engine
exception rethrown by `res.get()`), or a thrown value not derived from
`std::exception`. -/
inductive ExecOutcome where
  | success (body : String)
  | stdException (msg : String)
  | nonStdFailure
deriving DecidableEq

/-- An HTTP response: status code and body. -/
structure HttpResponse where
  status : Nat
  body : String
deriving DecidableEq

/-- What one endpoint invocation produced: the response, and whether the
handler reached the pool (`pool.enqueue` was invoked). -/
structure HandlerResult where
  response : HttpResponse
  poolTouched : Bool
deriving DecidableEq

/-- The route handler bodies of `main`: validate, serialize, enqueue,
await; `catch (const std::exception&)` maps to 400 with the exception
message, `catch (...)` maps to 500 with the fixed body. A stopped pool
makes `enqueue` throw `std::runtime_error("enqueue on stopped
ThreadPool")`, which the first catch receives. -/
def handleRequest (q : Query) (requireSecondBoard : Bool) (stopped : Bool)
    (engine : String → ExecOutcome) : HandlerResult :=
  match getParamsFromRequest q requireSecondBoard with
  | .error e => ⟨⟨400, e.message⟩, false⟩
  | .ok params =>
    let inputStr := generateRequestString params
    let outcome := if stopped then .stdException "enqueue on stopped ThreadPool"
                   else engine inputStr
    match outcome with
    | .success b => ⟨⟨200, b⟩, true⟩
    | .stdException m => ⟨⟨400, m⟩, true⟩
    | .nonStdFailure => ⟨⟨500, "An unknown error occurred"⟩, true⟩

/-! ### Record validity (the constraint table) -/

/-- A well-formed board: 200 characters, all `'0'` or `'1'`. -/
def boardOk (s : String) : Prop :=
  s.length = 200 ∧ ∀ c ∈ s.data, c = '0' ∨ c = '1'

instance (s : String) : Decidable (boardOk s) := by
  unfold boardOk; infer_instance

/-- A well-formed input frame timeline: all characters `'X'` or `'.'`. -/
def timelineOk (s : String) : Prop := ∀ c ∈ s.data, c = 'X' ∨ c = '.'

instance (s : String) : Decidable (timelineOk s) := by
  unfold timelineOk; infer_instance

/-- The full constraint table on a validated record: board well-formed,
second board empty or well-formed, level at least 18, the four count
fields non-negative, both pieces in [-1, 6], timeline over `{X, .}`. -/
def validRecord (p : RequestParams) : Prop :=
  boardOk p.boardString ∧
  (p.secondBoardString = "" ∨ boardOk p.secondBoardString) ∧
  18 ≤ p.level ∧ 0 ≤ p.lines ∧
  (-1 ≤ p.currentPiece ∧ p.currentPiece ≤ 6) ∧
  (-1 ≤ p.nextPiece ∧ p.nextPiece ≤ 6) ∧
  timelineOk p.inputFrameTimeline ∧
  0 ≤ p.playoutCount ∧ 0 ≤ p.playoutLength ∧ 0 ≤ p.pruningBreadth

instance (p : RequestParams) : Decidable (validRecord p) := by
  unfold validRecord; infer_instance

/-! ### Pipe-joined segments and the Engine-side tokenizer -/

/-- Join segments, each followed by one `'|'`. -/
def pipeJoin : List String → String
  | [] => ""
  | t :: ts => t ++ "|" ++ pipeJoin ts

/-- The rendered non-board fields, in serialization order. -/
def renderedFields (p : RequestParams) : List String :=
  [intToString p.level, intToString p.lines, intToString p.currentPiece,
   intToString p.nextPiece, p.inputFrameTimeline, intToString p.playoutCount,
   intToString p.playoutLength, intToString p.pruningBreadth]

/-- The segment list of the canonical string: board, second board exactly
when non-empty, then the rendered fields. -/
def segments (p : RequestParams) : List String :=
  p.boardString ::
    ((if p.secondBoardString = "" then [] else [p.secondBoardString])
      ++ renderedFields p)

/-- Modelled from the spec: the Engine (the unseen `mainProcess`)
tokenizes the canonical string strictly by `'|'`, with C++
`std::getline`-with-delimiter semantics — a trailing delimiter yields no
empty final token. Tokenizer loop, accumulating the current token
reversed in `acc`. -/
def splitGo : List Char → List Char → List String
  | [], acc => [String.mk acc.reverse]
  | c :: rest, acc =>
    if c = '|' then
      String.mk acc.reverse :: (if rest.isEmpty then [] else splitGo rest [])
    else splitGo rest (c :: acc)

/-- Modelled from the spec: splitting a string on `'|'` as the Engine
does; the empty string has no tokens. -/
def splitPipes (s : String) : List String :=
  if s.data.isEmpty then [] else splitGo s.data []

/-- Modelled from the spec: strict decimal parse of one token (optional
leading minus then a non-empty digit run, nothing else), inverting the
"decimal renderings" of §4.2. -/
def parseDec (s : String) : Option Int :=
  match s.data with
  | [] => none
  | c :: cs =>
    if c = '-' then
      if cs ≠ [] ∧ cs.all isDigitChar then some (-(digitsVal cs : Int)) else none
    else if (c :: cs).all isDigitChar then some ((digitsVal (c :: cs) : Int))
    else none

/-- Modelled from the spec: parsing the token list of a canonical string
back into a record — ten tokens carry a second board, nine do not. -/
def recordOfTokens : List String → Option RequestParams
  | [b, lv, ln, cp, np, ft, pc, pl, pb] => do
    let lv ← parseDec lv
    let ln ← parseDec ln
    let cp ← parseDec cp
    let np ← parseDec np
    let pc ← parseDec pc
    let pl ← parseDec pl
    let pb ← parseDec pb
    some ⟨b, "", lv, ln, cp, np, ft, pc, pl, pb⟩
  | [b, sb, lv, ln, cp, np, ft, pc, pl, pb] => do
    let lv ← parseDec lv
    let ln ← parseDec ln
    let cp ← parseDec cp
    let np ← parseDec np
    let pc ← parseDec pc
    let pl ← parseDec pl
    let pb ← parseDec pb
    some ⟨b, sb, lv, ln, cp, np, ft, pc, pl, pb⟩
  | _ => none

/-! ### The `ThreadPool` as a labelled transition system

Work items are numbered by submission. A worker is waiting inside
`condition.wait`, running one item, or has returned from its loop. -/

/-- The status of one pool worker thread. -/
inductive WStatus where
  | waiting
  | running (item : Nat)
  | exited
deriving DecidableEq

/-- The shared state of the pool, plus history variables: `submitted` in
submission order, `started` in dequeue order, `executed` in completion
order. -/
structure PoolState where
  queue : List Nat
  workers : List WStatus
  stop : Bool
  submitted : List Nat
  started : List Nat
  executed : List Nat
  nextId : Nat
deriving DecidableEq

/-- A fresh pool of `P` workers, all parked in `condition.wait`. -/
def initPool (P : Nat) : PoolState :=
  ⟨[], List.replicate P .waiting, false, [], [], [], 0⟩

/-- The item a worker holds, if it is running one. -/
def runOf : WStatus → Option Nat
  | .running x => some x
  | _ => none

/-- The items currently being executed by workers. -/
def runningItems (s : PoolState) : List Nat := s.workers.filterMap runOf

/-- One atomic step of the pool. `enqueue` is `ThreadPool::enqueue` past
its `stop` check; `take` is a worker passing `condition.wait` and popping
the queue front (the source's wait predicate is `stop || !tasks.empty()`,
so a non-empty queue is taken even when `stop` holds); `finish` is
`task()` returning; `setStop` is the destructor marking termination;
`exit` is the worker `return`, which the source guards by
`stop && tasks.empty()`. -/
inductive PoolStep : PoolState → PoolState → Prop where
  | enqueue (s : PoolState) (h : s.stop = false) :
      PoolStep s { s with queue := s.queue ++ [s.nextId],
                          submitted := s.submitted ++ [s.nextId],
                          nextId := s.nextId + 1 }
  | take (s : PoolState) (i x : Nat) (rest : List Nat)
      (hw : s.workers.get? i = some .waiting) (hq : s.queue = x :: rest) :
      PoolStep s { s with queue := rest,
                          workers := s.workers.set i (.running x),
                          started := s.started ++ [x] }
  | finish (s : PoolState) (i x : Nat)
      (hw : s.workers.get? i = some (.running x)) :
      PoolStep s { s with workers := s.workers.set i .waiting,
                          executed := s.executed ++ [x] }
  | setStop (s : PoolState) :
      PoolStep s { s with stop := true }
  | exit (s : PoolState) (i : Nat)
      (hw : s.workers.get? i = some .waiting) (hstop : s.stop = true)
      (hq : s.queue = []) :
      PoolStep s { s with workers := s.workers.set i .exited }

/-- The states a pool of `P` workers can reach from rest. -/
def PoolReachable (P : Nat) (s : PoolState) : Prop :=
  Relation.ReflTransGen PoolStep (initPool P) s

/-- The inductive invariant of the pool: a fixed worker count, FIFO
bookkeeping (`submitted` is exactly `started` then the pending queue),
ids issued in order, and conservation of every item between the dequeue
history, the completion history and the workers' hands. -/
structure PoolInv (P : Nat) (s : PoolState) : Prop where
  wlen : s.workers.length = P
  fifo : s.submitted = s.started ++ s.queue
  ids : s.submitted = List.range s.nextId
  conserve : ∀ x, s.started.count x
      = s.executed.count x + (runningItems s).count x

/-! ### Lemmas on decimal rendering -/

theorem digitChar_isDigit {n : Nat} (h : n < 10) : isDigitChar (digitChar n) = true := by
  interval_cases n <;> decide

theorem digitChar_toNat {n : Nat} (h : n < 10) : (digitChar n).toNat - 48 = n := by
  interval_cases n <;> decide

theorem digitsValAux_nil (a : Nat) : digitsValAux a [] = a := rfl

theorem digitsValAux_cons (a : Nat) (c : Char) (cs : List Char) :
    digitsValAux a (c :: cs) = digitsValAux (a * 10 + (c.toNat - 48)) cs := rfl

theorem digitsValAux_append (a : Nat) (l₁ l₂ : List Char) :
    digitsValAux a (l₁ ++ l₂) = digitsValAux (digitsValAux a l₁) l₂ := by
  induction l₁ generalizing a with
  | nil => rfl
  | cons c cs ih => exact ih (a * 10 + (c.toNat - 48))

theorem natDigitsAux_succ (fuel n : Nat) :
    natDigitsAux (fuel + 1) n =
      if n < 10 then [digitChar n]
      else natDigitsAux fuel (n / 10) ++ [digitChar (n % 10)] := rfl

theorem natDigitsAux_spec :
    ∀ fuel n, n < fuel →
      natDigitsAux fuel n ≠ [] ∧
      (∀ c ∈ natDigitsAux fuel n, isDigitChar c = true) ∧
      ∀ a, digitsValAux a (natDigitsAux fuel n)
            = a * 10 ^ (natDigitsAux fuel n).length + n := by
  intro fuel
  induction fuel with
  | zero => intro n h; omega
  | succ fuel ih =>
    intro n h
    by_cases h10 : n < 10
    · rw [natDigitsAux_succ, if_pos h10]
      refine ⟨by simp, ?_, ?_⟩
      · intro c hc
        simp only [List.mem_singleton] at hc
        subst hc; exact digitChar_isDigit h10
      · intro a
        rw [digitsValAux_cons, digitsValAux_nil, digitChar_toNat h10]
        simp
    · have hdiv : n / 10 < fuel := by
        have : n / 10 < n := Nat.div_lt_self (by omega) (by omega)
        omega
      obtain ⟨hne, hdig, hval⟩ := ih (n / 10) hdiv
      have hmod : n % 10 < 10 := Nat.mod_lt _ (by omega)
      rw [natDigitsAux_succ, if_neg h10]
      refine ⟨by simp, ?_, ?_⟩
      · intro c hc
        rcases List.mem_append.mp hc with hc | hc
        · exact hdig c hc
        · rw [List.mem_singleton] at hc
          subst hc; exact digitChar_isDigit hmod
      · intro a
        rw [digitsValAux_append, hval a, digitsValAux_cons, digitsValAux_nil,
          digitChar_toNat hmod]
        simp only [List.length_append, List.length_cons, List.length_nil]
        rw [pow_succ]
        have := Nat.div_add_mod n 10
        ring_nf
        omega

theorem natDigits_ne_nil (n : Nat) : natDigits n ≠ [] :=
  (natDigitsAux_spec (n + 1) n (by omega)).1

theorem natDigits_digits {n : Nat} {c : Char} (hc : c ∈ natDigits n) :
    isDigitChar c = true :=
  (natDigitsAux_spec (n + 1) n (by omega)).2.1 c hc

theorem digitsVal_natDigits (n : Nat) : digitsVal (natDigits n) = n := by
  have := (natDigitsAux_spec (n + 1) n (by omega)).2.2 0
  simpa [digitsVal] using this

theorem isDigitChar_ne_pipe {c : Char} (h : isDigitChar c = true) : c ≠ '|' := by
  intro hc; subst hc; simp [isDigitChar] at h

theorem isDigitChar_ne_dash {c : Char} (h : isDigitChar c = true) : c ≠ '-' := by
  intro hc; subst hc; simp [isDigitChar] at h

/-- Every character of a rendered integer is a digit or the sign. -/
theorem intToString_chars {n : Int} {c : Char} (hc : c ∈ (intToString n).data) :
    isDigitChar c = true ∨ c = '-' := by
  unfold intToString at hc
  by_cases h : n < 0 <;> simp [h] at hc
  · rcases hc with hc | hc
    · right; exact hc
    · left; exact natDigits_digits hc
  · left; exact natDigits_digits hc

theorem intToString_no_pipe {n : Int} {c : Char} (hc : c ∈ (intToString n).data) :
    c ≠ '|' := by
  rcases intToString_chars hc with h | h
  · exact isDigitChar_ne_pipe h
  · subst h; decide

theorem parseDec_cons (c : Char) (cs : List Char) :
    parseDec (String.mk (c :: cs)) =
      if c = '-' then
        (if cs ≠ [] ∧ cs.all isDigitChar then some (-(digitsVal cs : Int))
         else none)
      else if (c :: cs).all isDigitChar then some ((digitsVal (c :: cs) : Int))
      else none := rfl

/-- Strict decimal parsing inverts rendering. -/
theorem parseDec_intToString (n : Int) : parseDec (intToString n) = some n := by
  obtain ⟨c, cs, hcs⟩ : ∃ c cs, natDigits n.natAbs = c :: cs := by
    cases hn : natDigits n.natAbs with
    | nil => exact absurd hn (natDigits_ne_nil _)
    | cons c cs => exact ⟨c, cs, rfl⟩
  have hall : (natDigits n.natAbs).all isDigitChar = true :=
    List.all_eq_true.mpr (fun d hd => natDigits_digits hd)
  by_cases h : n < 0
  · have habs : 1 ≤ n.natAbs := by omega
    unfold intToString
    rw [if_pos h, parseDec_cons, if_pos rfl,
        if_pos ⟨natDigits_ne_nil _, hall⟩, digitsVal_natDigits]
    congr 1
    omega
  · have hcdig : isDigitChar c = true := by
      apply natDigits_digits
      rw [hcs]; exact List.mem_cons_self c cs
    unfold intToString
    rw [if_neg h, hcs, parseDec_cons, if_neg (isDigitChar_ne_dash hcdig),
        if_pos (by rw [← hcs]; exact hall)]
    have := digitsVal_natDigits n.natAbs
    rw [hcs] at this
    rw [this]
    congr 1
    omega

/-! ### Lemmas on pipe joining and splitting -/

theorem pipeJoin_cons_data (t : String) (ts : List String) :
    (pipeJoin (t :: ts)).data = t.data ++ '|' :: (pipeJoin ts).data := by
  show ((t ++ "|" ++ pipeJoin ts)).data = _
  simp

theorem pipeJoin_ne_nil_data {ts : List String} (h : ts ≠ []) :
    (pipeJoin ts).data ≠ [] := by
  cases ts with
  | nil => exact absurd rfl h
  | cons t ts => rw [pipeJoin_cons_data]; simp

/-- The canonical string is the pipe join of its segment list. -/
theorem generateRequestString_eq_pipeJoin (p : RequestParams) :
    generateRequestString p = pipeJoin (segments p) := by
  apply String.ext
  unfold generateRequestString segments renderedFields
  by_cases h : p.secondBoardString = "" <;>
    simp [h, pipeJoin_cons_data, pipeJoin]

theorem splitGo_nil (acc : List Char) :
    splitGo [] acc = [String.mk acc.reverse] := rfl

theorem splitGo_cons (c : Char) (rest acc : List Char) :
    splitGo (c :: rest) acc =
      if c = '|' then
        String.mk acc.reverse :: (if rest.isEmpty then [] else splitGo rest [])
      else splitGo rest (c :: acc) := rfl

/-- Consuming a pipe-free run then a delimiter emits one token. -/
theorem splitGo_run (cs : List Char) :
    ∀ acc rest, (∀ c ∈ cs, c ≠ '|') → rest ≠ [] →
      splitGo (cs ++ '|' :: rest) acc
        = String.mk (acc.reverse ++ cs) :: splitGo rest [] := by
  induction cs with
  | nil =>
    intro acc rest _ hrest
    rw [List.nil_append, splitGo_cons, if_pos rfl,
      if_neg (by simpa [List.isEmpty_iff] using hrest)]
    simp
  | cons c cs ih =>
    intro acc rest hnp hrest
    have hc : c ≠ '|' := hnp c (List.mem_cons_self c cs)
    rw [List.cons_append, splitGo_cons, if_neg hc,
      ih (c :: acc) rest (fun d hd => hnp d (List.mem_cons_of_mem c hd)) hrest]
    simp

/-- The final token before the trailing delimiter. -/
theorem splitGo_last (cs : List Char) :
    ∀ acc, (∀ c ∈ cs, c ≠ '|') →
      splitGo (cs ++ ['|']) acc = [String.mk (acc.reverse ++ cs)] := by
  induction cs with
  | nil =>
    intro acc _
    rw [List.nil_append, splitGo_cons, if_pos rfl]
    simp [List.isEmpty]
  | cons c cs ih =>
    intro acc hnp
    have hc : c ≠ '|' := hnp c (List.mem_cons_self c cs)
    rw [List.cons_append, splitGo_cons, if_neg hc,
      ih (c :: acc) (fun d hd => hnp d (List.mem_cons_of_mem c hd))]
    simp

/-- Tokenizing a pipe join of pipe-free segments recovers the segments. -/
theorem splitPipes_pipeJoin :
    ∀ ts : List String, ts ≠ [] → (∀ t ∈ ts, ∀ c ∈ t.data, c ≠ '|') →
      splitPipes (pipeJoin ts) = ts := by
  intro ts
  induction ts with
  | nil => intro h; exact absurd rfl h
  | cons t ts ih =>
    intro _ hnp
    have ht : ∀ c ∈ t.data, c ≠ '|' :=
      hnp t (List.mem_cons_self t ts)
    unfold splitPipes
    rw [if_neg (by
      rw [pipeJoin_cons_data]
      simp [List.isEmpty_iff])]
    rw [pipeJoin_cons_data]
    cases ts with
    | nil =>
      rw [show (pipeJoin []).data = [] from rfl,
        show (t.data ++ '|' :: ([] : List Char)) = t.data ++ ['|'] from rfl,
        splitGo_last t.data [] ht]
      simp
    | cons u us =>
      rw [splitGo_run t.data [] (pipeJoin (u :: us)).data ht
          (pipeJoin_ne_nil_data (by simp))]
      have hrec := ih (by simp)
        (fun v hv c hc => hnp v (List.mem_cons_of_mem t hv) c hc)
      unfold splitPipes at hrec
      rw [if_neg (by
        simpa [List.isEmpty_iff] using pipeJoin_ne_nil_data
          (show u :: us ≠ [] by simp))] at hrec
      rw [hrec]
      simp

/-- The pipe count of a join of pipe-free segments is the segment count. -/
theorem count_pipe_pipeJoin :
    ∀ ts : List String, (∀ t ∈ ts, ∀ c ∈ t.data, c ≠ '|') →
      ((pipeJoin ts).data.count '|') = ts.length := by
  intro ts
  induction ts with
  | nil => intro _; rfl
  | cons t ts ih =>
    intro hnp
    rw [pipeJoin_cons_data, List.count_append, List.count_cons]
    rw [ih (fun u hu c hc => hnp u (List.mem_cons_of_mem t hu) c hc)]
    have ht : t.data.count '|' = 0 := by
      rw [List.count_eq_zero]
      intro hmem
      exact hnp t (List.mem_cons_self t ts) '|' hmem rfl
    simp [ht]

/-- A non-empty pipe join ends with the delimiter. -/
theorem getLast_pipeJoin :
    ∀ ts : List String, ts ≠ [] → (pipeJoin ts).data.getLast? = some '|' := by
  intro ts
  induction ts with
  | nil => intro h; exact absurd rfl h
  | cons t ts ih =>
    intro _
    rw [pipeJoin_cons_data]
    cases hts : ts with
    | nil =>
      rw [show (pipeJoin []).data = [] from rfl]
      rw [show (t.data ++ '|' :: []) = t.data ++ ['|'] from rfl]
      simp
    | cons u us =>
      rw [List.getLast?_append_of_ne_nil]
      · rw [List.getLast?_cons, ← hts, ih (by rw [hts]; simp)]
        cases hpj : (pipeJoin ts).data with
        | nil => simp [hpj]
        | cons a as => simp [hpj]
      · simp

/-! ### Segment facts for valid records -/

theorem boardOk_no_pipe {s : String} (h : boardOk s) :
    ∀ c ∈ s.data, c ≠ '|' := by
  intro c hc
  rcases h.2 c hc with h0 | h0 <;> (subst h0; decide)

theorem timelineOk_no_pipe {s : String} (h : timelineOk s) :
    ∀ c ∈ s.data, c ≠ '|' := by
  intro c hc
  rcases h c hc with h0 | h0 <;> (subst h0; decide)

theorem segments_no_pipe {p : RequestParams} (hv : validRecord p) :
    ∀ t ∈ segments p, ∀ c ∈ t.data, c ≠ '|' := by
  obtain ⟨hb, hsb, -, -, -, -, htl, -, -, -⟩ := hv
  intro t ht
  unfold segments renderedFields at ht
  by_cases hsbe : p.secondBoardString = "" <;> simp [hsbe] at ht
  · rcases ht with h | h | h | h | h | h | h | h | h <;> subst h
    · exact boardOk_no_pipe hb
    · exact fun c hc => intToString_no_pipe hc
    · exact fun c hc => intToString_no_pipe hc
    · exact fun c hc => intToString_no_pipe hc
    · exact fun c hc => intToString_no_pipe hc
    · exact timelineOk_no_pipe htl
    · exact fun c hc => intToString_no_pipe hc
    · exact fun c hc => intToString_no_pipe hc
    · exact fun c hc => intToString_no_pipe hc
  · rcases ht with h | h | h | h | h | h | h | h | h | h <;> subst h
    · exact boardOk_no_pipe hb
    · exact boardOk_no_pipe (hsb.resolve_left hsbe)
    · exact fun c hc => intToString_no_pipe hc
    · exact fun c hc => intToString_no_pipe hc
    · exact fun c hc => intToString_no_pipe hc
    · exact fun c hc => intToString_no_pipe hc
    · exact timelineOk_no_pipe htl
    · exact fun c hc => intToString_no_pipe hc
    · exact fun c hc => intToString_no_pipe hc
    · exact fun c hc => intToString_no_pipe hc

theorem segments_ne_nil (p : RequestParams) : segments p ≠ [] := by
  unfold segments; simp

theorem segments_length (p : RequestParams) :
    (segments p).length = if p.secondBoardString = "" then 9 else 10 := by
  unfold segments renderedFields
  by_cases h : p.secondBoardString = "" <;> simp [h]

theorem splitPipes_generateRequestString {p : RequestParams}
    (hv : validRecord p) :
    splitPipes (generateRequestString p) = segments p := by
  rw [generateRequestString_eq_pipeJoin]
  exact splitPipes_pipeJoin (segments p) (segments_ne_nil p) (segments_no_pipe hv)

theorem recordOfTokens_segments {p : RequestParams} :
    recordOfTokens (segments p) = some p := by
  obtain ⟨b, sb, lv, ln, cp, np, ft, pc, pl, pb⟩ := p
  by_cases h : sb = "" <;>
    simp [segments, renderedFields, recordOfTokens, parseDec_intToString, h]

/-! ### Lemmas on validation -/

theorem any_not01_false {s : String}
    (h : ¬(s.data.any (fun c => !(c = '0' || c = '1')) = true)) :
    ∀ c ∈ s.data, c = '0' ∨ c = '1' := by
  intro c hc
  by_contra hcon
  push_neg at hcon
  exact h (List.any_eq_true.mpr ⟨c, hc, by
    simp [hcon.1, hcon.2]⟩)

theorem any_notXdot_false {s : String}
    (h : ¬(s.data.any (fun c => !(c = 'X' || c = '.')) = true)) :
    timelineOk s := by
  intro c hc
  by_contra hcon
  push_neg at hcon
  exact h (List.any_eq_true.mpr ⟨c, hc, by
    simp [hcon.1, hcon.2]⟩)

theorem getSecondBoard_ok {q : Query} {rsb : Bool} {sb : String}
    (h : getSecondBoard q rsb = .ok sb) :
    if rsb then boardOk sb else sb = "" := by
  unfold getSecondBoard at h
  split at h
  case isTrue hr =>
    rw [if_pos hr]
    split at h
    · exact absurd h (by simp)
    case h_2 s' heq =>
      split at h
      · exact absurd h (by simp)
      case isFalse hlen =>
        split at h
        · exact absurd h (by simp)
        case isFalse hchr =>
          injection h with h
          subst h
          exact ⟨by omega, any_not01_false hchr⟩
  case isFalse hr =>
    rw [if_neg hr]
    injection h with h
    exact h.symm

/-- Every record validation returns satisfies the full constraint table,
with the second board forced empty when not required. -/
theorem getParams_ok_spec {q : Query} {rsb : Bool} {p : RequestParams}
    (h : getParamsFromRequest q rsb = .ok p) :
    boardOk p.boardString ∧
    (if rsb then boardOk p.secondBoardString
     else p.secondBoardString = "") ∧
    18 ≤ p.level ∧ 0 ≤ p.lines ∧
    (-1 ≤ p.currentPiece ∧ p.currentPiece ≤ 6) ∧
    (-1 ≤ p.nextPiece ∧ p.nextPiece ≤ 6) ∧
    timelineOk p.inputFrameTimeline ∧
    0 ≤ p.playoutCount ∧ 0 ≤ p.playoutLength ∧ 0 ≤ p.pruningBreadth := by
  unfold getParamsFromRequest at h
  repeat' split at h
  all_goals try exact Except.noConfusion h
  injection h with h
  subst h
  dsimp only
  refine ⟨⟨by omega, any_not01_false (by assumption)⟩,
    getSecondBoard_ok (by assumption),
    by omega, by omega, ⟨by omega, by omega⟩, ⟨by omega, by omega⟩,
    any_notXdot_false (by assumption), by omega, by omega, by omega⟩

/-- Every record validation returns is a valid record. -/
theorem getParams_ok_valid {q : Query} {rsb : Bool} {p : RequestParams}
    (h : getParamsFromRequest q rsb = .ok p) : validRecord p := by
  obtain ⟨h1, h2, h3⟩ := getParams_ok_spec h
  refine ⟨h1, ?_, h3⟩
  by_cases hr : rsb
  · right; rw [if_pos hr] at h2; exact h2
  · left; simp [hr] at h2; exact h2

/-- A query without `board` fails immediately with the missing-parameter
message. -/
theorem getParams_missing_board {q : Query} (rsb : Bool)
    (h : lookupParam q "board" = none) :
    getParamsFromRequest q rsb
      = .error (.runtimeError "Missing required parameter: board") := by
  unfold getParamsFromRequest getStringParam
  rw [h]
  rfl

/-! ### Defaults: a board-only request -/

/-- The record produced for a valid board with every other parameter
defaulted. -/
def defaultRecord (b : String) : RequestParams :=
  ⟨b, "", 18, 0, -1, -1, "X.", 343, 3, 25⟩

theorem getParams_board_only {b : String} (hb : boardOk b) :
    getParamsFromRequest [("board", b)] false = .ok (defaultRecord b) := by
  obtain ⟨hlen, hchr⟩ := hb
  have hany : (b.data.any (fun c => !(c = '0' || c = '1'))) = false := by
    rw [List.any_eq_false]
    intro c hc
    rcases hchr c hc with h | h <;> simp [h]
  simp [getParamsFromRequest, getStringParam, getIntParam, getSecondBoard,
    lookupParam, hlen, hany, defaultRecord]
  intro c hc h0
  rcases hchr c hc with h | h
  · exact absurd h h0
  · exact h

theorem generateRequestString_defaults (b : String) :
    generateRequestString (defaultRecord b)
      = b ++ "|18|0|-1|-1|X.|343|3|25|" := by
  apply String.ext
  rw [show generateRequestString (defaultRecord b)
        = b ++ "|" ++ intToString 18 ++ "|" ++ intToString 0 ++ "|"
          ++ intToString (-1) ++ "|" ++ intToString (-1) ++ "|" ++ "X." ++ "|"
          ++ intToString 343 ++ "|" ++ intToString 3 ++ "|" ++ intToString 25
          ++ "|" from rfl]
  simp only [String.data_append, List.append_assoc]
  rfl

/-! ### Pool invariant lemmas -/

theorem count_filterMap_set (f : WStatus → Option Nat) :
    ∀ (l : List WStatus) (i : Nat) (v w : WStatus),
      l.get? i = some w → ∀ y,
      ((l.set i v).filterMap f).count y + ((f w).toList.count y)
        = (l.filterMap f).count y + ((f v).toList.count y) := by
  intro l
  induction l with
  | nil => intro i v w h y; simp at h
  | cons a t ih =>
    intro i v w h y
    cases i with
    | zero =>
      simp only [List.get?_cons_zero, Option.some.injEq] at h
      subst h
      simp only [List.set_cons_zero, List.filterMap_cons]
      cases hv : f v <;> cases ha : f a <;>
        simp [List.count_cons] <;> omega
    | succ i =>
      simp only [List.get?_cons_succ] at h
      have hrec := ih i v w h y
      simp only [List.set_cons_succ, List.filterMap_cons]
      cases ha : f a <;> simp [List.count_cons] <;> omega

theorem filterMap_runOf_replicate (P : Nat) :
    (List.replicate P WStatus.waiting).filterMap runOf = [] := by
  induction P with
  | zero => rfl
  | succ n ih => simp [List.replicate_succ, List.filterMap_cons, runOf, ih]

theorem poolInv_init (P : Nat) : PoolInv P (initPool P) := by
  refine ⟨by simp [initPool], rfl, rfl, ?_⟩
  intro x
  simp [initPool, runningItems, filterMap_runOf_replicate]

theorem poolInv_step {P : Nat} {s s' : PoolState}
    (hinv : PoolInv P s) (hstep : PoolStep s s') : PoolInv P s' := by
  obtain ⟨wlen, fifo, ids, conserve⟩ := hinv
  cases hstep with
  | enqueue h =>
    refine ⟨wlen, ?_, ?_, conserve⟩
    · simp only [fifo, List.append_assoc]
    · simp [ids, List.range_succ]
  | take i x rest hw hq =>
    refine ⟨by simpa using wlen, ?_, ids, ?_⟩
    · rw [fifo, hq]
      simp
    · intro y
      have hset := count_filterMap_set runOf s.workers i (.running x) .waiting hw y
      simp only [runOf, Option.toList] at hset
      have hcount := conserve y
      simp only [runningItems, List.count_append]
      simp only [runningItems] at hcount
      simp only [List.count_cons, List.count_nil] at *
      omega
  | finish i x hw =>
    refine ⟨by simpa using wlen, fifo, ids, ?_⟩
    intro y
    have hset := count_filterMap_set runOf s.workers i .waiting (.running x) hw y
    simp only [runOf, Option.toList] at hset
    have hcount := conserve y
    simp only [runningItems, List.count_append]
    simp only [runningItems] at hcount
    simp only [List.count_cons, List.count_nil] at *
    omega
  | setStop =>
    exact ⟨wlen, fifo, ids, conserve⟩
  | exit i hw hstop hq =>
    refine ⟨by simpa using wlen, fifo, ids, ?_⟩
    intro y
    have hset := count_filterMap_set runOf s.workers i .exited .waiting hw y
    simp only [runOf, Option.toList] at hset
    have hcount := conserve y
    simp only [runningItems] at *
    omega

theorem poolInv_reachable {P : Nat} {s : PoolState}
    (h : PoolReachable P s) : PoolInv P s := by
  induction h with
  | refl => exact poolInv_init P
  | tail _ hstep ih => exact poolInv_step ih hstep

/-- Steps never unset the terminating flag, and never accept a submission
once it is set. -/
theorem poolStep_stop_sticky {s s' : PoolState} (h : PoolStep s s')
    (hstop : s.stop = true) :
    s'.stop = true ∧ s'.submitted = s.submitted := by
  cases h with
  | enqueue hq => exact absurd hstop (by simp [hq])
  | take i x rest hw hq => exact ⟨hstop, rfl⟩
  | finish i x hw => exact ⟨hstop, rfl⟩
  | setStop => exact ⟨rfl, rfl⟩
  | exit i hw hstop' hq => exact ⟨hstop, rfl⟩

/-- A worker moves to `exited` only when the flag is set and the queue is
empty at that step. -/
theorem poolStep_exit_characterisation {s s' : PoolState} (h : PoolStep s s')
    (i : Nat) (hbefore : s.workers.get? i ≠ some .exited)
    (hafter : s'.workers.get? i = some .exited) :
    s.stop = true ∧ s.queue = [] := by
  cases h with
  | enqueue hq => exact absurd hafter hbefore
  | take j x rest hw hq =>
    by_cases hij : j = i
    · subst hij
      rw [List.get?_set_eq] at hafter
      rw [hw] at hafter
      simp at hafter
    · rw [List.get?_set_ne _ _ hij] at hafter
      exact absurd hafter hbefore
  | finish j x hw =>
    by_cases hij : j = i
    · subst hij
      rw [List.get?_set_eq] at hafter
      rw [hw] at hafter
      simp at hafter
    · rw [List.get?_set_ne _ _ hij] at hafter
      exact absurd hafter hbefore
  | setStop => exact absurd hafter hbefore
  | exit j hw hstop hq =>
    exact ⟨hstop, hq⟩

/-! ### `stoi` on strings with a digit prefix -/

theorem digit_not_space {c : Char} (h : isDigitChar c = true) :
    isSpaceChar c = false := by
  by_contra hne
  simp only [Bool.not_eq_false] at hne
  unfold isSpaceChar at hne
  simp only [Bool.or_eq_true, decide_eq_true_eq] at hne
  rcases hne with ((((h1 | h1) | h1) | h1) | h1) | h1 <;>
    (subst h1; exact absurd h (by decide))

theorem digit_ne_minus {c : Char} (h : isDigitChar c = true) : ¬(c = '-') := by
  intro hc; subst hc; exact absurd h (by decide)

theorem digit_ne_plus {c : Char} (h : isDigitChar c = true) : ¬(c = '+') := by
  intro hc; subst hc; exact absurd h (by decide)

theorem takeWhile_all_append (p : Char → Bool) :
    ∀ (d rest : List Char), (∀ c ∈ d, p c = true) →
      (∀ c, rest.head? = some c → p c = false) →
      (d ++ rest).takeWhile p = d := by
  intro d
  induction d with
  | nil =>
    intro rest _ hrest
    cases rest with
    | nil => rfl
    | cons r rs =>
      simp only [List.nil_append, List.takeWhile_cons,
        hrest r rfl]
      simp
  | cons c cs ih =>
    intro rest hall hrest
    rw [List.cons_append, List.takeWhile_cons,
      hall c (List.mem_cons_self c cs)]
    simp only [if_true]
    rw [ih rest (fun x hx => hall x (List.mem_cons_of_mem c hx)) hrest]

/-- `std::stoi` on a value whose data is a non-empty digit run followed by
a non-digit (or nothing) yields the value of the digit prefix, provided
that value fits in `int`. -/
theorem stoi_digit_prefix {s : String} {d rest : List Char}
    (hdata : s.data = d ++ rest) (hd : d ≠ [])
    (hdig : ∀ c ∈ d, isDigitChar c = true)
    (hrest : ∀ c, rest.head? = some c → isDigitChar c = false)
    (hrange : (digitsVal d : Int) ≤ 2147483647) :
    stoi s = .ok (digitsVal d) := by
  obtain ⟨c, d', rfl⟩ : ∃ c d', d = c :: d' := by
    cases d with
    | nil => exact absurd rfl hd
    | cons c d' => exact ⟨c, d', rfl⟩
  have hc : isDigitChar c = true := hdig c (List.mem_cons_self c d')
  unfold stoi stoiCore
  rw [hdata, List.cons_append, List.dropWhile_cons, digit_not_space hc]
  simp only [Bool.false_eq_true, if_false]
  rw [if_neg (digit_ne_minus hc), if_neg (digit_ne_plus hc)]
  unfold stoiDigits
  rw [← List.cons_append,
    takeWhile_all_append isDigitChar (c :: d') rest hdig hrest]
  rw [if_neg hd]
  have hpos : (0 : Int) ≤ (digitsVal (c :: d') : Int) := Int.ofNat_nonneg _
  rw [if_neg (by omega)]
  simp

/-! ### Concrete fixtures for the claims -/

/-- A valid 200-character board of zeros. -/
def witBoard : String := String.mk (List.replicate 200 '0')

/-- Pool trace: fresh single-worker pool. -/
def c4s0 : PoolState := initPool 1

/-- Pool trace: one item enqueued. -/
def c4s1 : PoolState := ⟨[0], [.waiting], false, [0], [], [], 1⟩

/-- Pool trace: the terminating flag set with item 0 still queued. -/
def c4s2 : PoolState := ⟨[0], [.waiting], true, [0], [], [], 1⟩

/-- Pool trace: the worker dequeued item 0 after termination was set. -/
def c4s3 : PoolState := ⟨[], [.running 0], true, [0], [0], [], 1⟩

/-- Pool trace: item 0 finished; quiescent. -/
def c4s4 : PoolState := ⟨[], [.waiting], true, [0], [0], [0], 1⟩

theorem c4_reach2 : PoolReachable 1 c4s2 :=
  Relation.ReflTransGen.tail
    (Relation.ReflTransGen.tail Relation.ReflTransGen.refl
      (PoolStep.enqueue c4s0 rfl))
    (PoolStep.setStop c4s1)

theorem c4_step23 : PoolStep c4s2 c4s3 := PoolStep.take c4s2 0 0 [] rfl rfl

theorem c4_step34 : PoolStep c4s3 c4s4 := PoolStep.finish c4s3 0 0 rfl

theorem c4_reach4 : PoolReachable 1 c4s4 :=
  Relation.ReflTransGen.tail (Relation.ReflTransGen.tail c4_reach2 c4_step23)
    c4_step34

/-! ### The claims -/

/-- C1 (counterexample): with a valid board, a stopped pool yields status
400 with the `enqueue on stopped ThreadPool` message in the body, and an
Engine failure that derives from `std::exception` yields 400 with its own
message — not status 500 with the fixed generic body, and the original
failure message IS included. -/
theorem c1_counterexample :
    (handleRequest [("board", witBoard)] false true
        (fun _ => .success "ok")).response
      = ⟨400, "enqueue on stopped ThreadPool"⟩ ∧
    (handleRequest [("board", witBoard)] false false
        (fun _ => .stdException "boom")).response
      = ⟨400, "boom"⟩ := by
  constructor <;> decide

/-- C1 (amended): when validation succeeds, a failure surfaced as a
`std::exception` — the stopped-pool rejection or an Engine exception
rethrown by the result handle — is mapped to 400 with that exception's
message as the body; only a failure not derived from `std::exception`
yields 500 with the fixed body `An unknown error occurred`. -/
theorem c1_amended (q : Query) (rsb stopped : Bool)
    (eng : String → ExecOutcome) (p : RequestParams)
    (h : getParamsFromRequest q rsb = .ok p) :
    (stopped = true →
      (handleRequest q rsb stopped eng).response
        = ⟨400, "enqueue on stopped ThreadPool"⟩) ∧
    (∀ m, stopped = false → eng (generateRequestString p) = .stdException m →
      (handleRequest q rsb stopped eng).response = ⟨400, m⟩) ∧
    (stopped = false → eng (generateRequestString p) = .nonStdFailure →
      (handleRequest q rsb stopped eng).response
        = ⟨500, "An unknown error occurred"⟩) := by
  unfold handleRequest
  rw [h]
  refine ⟨?_, ?_, ?_⟩
  · intro hst; subst hst; rfl
  · intro m hst heng; subst hst; simp [heng]
  · intro hst heng; subst hst; simp [heng]

/-- C1 (witness): the amended statement applied to a concrete stopped
pool. -/
theorem c1_witness :
    getParamsFromRequest [("board", witBoard)] false
      = .ok (defaultRecord witBoard) ∧
    (handleRequest [("board", witBoard)] false true
        (fun _ => .nonStdFailure)).response
      = ⟨400, "enqueue on stopped ThreadPool"⟩ :=
  ⟨by decide,
   (c1_amended [("board", witBoard)] false true (fun _ => .nonStdFailure)
      (defaultRecord witBoard) (by decide)).1 rfl⟩

/-- C2 (counterexample): the integer value `18abc` is not rejected:
`std::stoi` accepts the parsed prefix, so validation succeeds with
`level = 18`. -/
theorem c2_counterexample :
    getIntParam [("board", witBoard), ("level", "18abc")] "level" (some 18)
      = .ok 18 ∧
    getParamsFromRequest [("board", witBoard), ("level", "18abc")] false
      = .ok (defaultRecord witBoard) := by
  constructor <;> decide

/-- C2 (amended): an integer field whose value starts with at least one
decimal digit is accepted with the value of its longest digit prefix
(trailing non-digit characters are ignored); a parse failure arises only
when no digits can be read at all. -/
theorem c2_amended (q : Query) (key : String) (dv : Option Int)
    (s : String) (d rest : List Char)
    (hlook : lookupParam q key = some s)
    (hdata : s.data = d ++ rest) (hd : d ≠ [])
    (hdig : ∀ c ∈ d, isDigitChar c = true)
    (hrest : ∀ c, rest.head? = some c → isDigitChar c = false)
    (hrange : (digitsVal d : Int) ≤ 2147483647) :
    getIntParam q key dv = .ok (digitsVal d) := by
  have hstoi := stoi_digit_prefix hdata hd hdig hrest hrange
  simp [getIntParam, hlook, hstoi]

/-- C2 (witness): the amended statement applied to `level=18abc`. -/
theorem c2_witness :
    lookupParam [("level", "18abc")] "level" = some "18abc" ∧
    getIntParam [("level", "18abc")] "level" (some 18)
      = .ok (digitsVal ['1', '8']) :=
  ⟨by decide,
   c2_amended [("level", "18abc")] "level" (some 18) "18abc"
     ['1', '8'] ['a', 'b', 'c'] (by decide) (by decide) (by decide)
     (by decide)
     (by intro c hc
         simp only [List.head?_cons, Option.some.injEq] at hc
         subst hc; decide)
     (by decide)⟩

/-- C3: a valid-board request with no other parameters validates to the
default record, its canonical string is the board followed by
`|18|0|-1|-1|X.|343|3|25|`, and the response is 200 with the Engine's
body. -/
theorem c3_defaults (b : String) (eng : String → ExecOutcome) (body : String)
    (hb : boardOk b)
    (heng : eng (b ++ "|18|0|-1|-1|X.|343|3|25|") = .success body) :
    getParamsFromRequest [("board", b)] false = .ok (defaultRecord b) ∧
    generateRequestString (defaultRecord b)
      = b ++ "|18|0|-1|-1|X.|343|3|25|" ∧
    (handleRequest [("board", b)] false false eng).response = ⟨200, body⟩ := by
  refine ⟨getParams_board_only hb, generateRequestString_defaults b, ?_⟩
  unfold handleRequest
  rw [getParams_board_only hb]
  simp [generateRequestString_defaults, heng]

/-- C3 (witness): the default serialization at a concrete board. -/
theorem c3_witness :
    boardOk witBoard ∧
    (handleRequest [("board", witBoard)] false false
        (fun _ => .success "resp")).response = ⟨200, "resp"⟩ :=
  ⟨by decide,
   (c3_defaults witBoard (fun _ => .success "resp") "resp" (by decide)
      rfl).2.2⟩

/-- C4 (counterexample): with the terminating flag set and item 0 still
queued, the worker dequeues and executes it — reachable trace
`c4s2 → c4s3 → c4s4` — refuting the statement that workers dequeue no
further items after shutdown and that queued items are never executed. -/
theorem c4_counterexample :
    PoolReachable 1 c4s2 ∧ c4s2.stop = true ∧ c4s2.queue = [0] ∧
    PoolStep c4s2 c4s3 ∧ c4s3.started = [0] ∧
    PoolStep c4s3 c4s4 ∧ c4s4.executed = [0] ∧
    ¬(∀ s s' : PoolState, s.stop = true → PoolStep s s' →
        s'.started = s.started) := by
  refine ⟨c4_reach2, rfl, rfl, c4_step23, rfl, c4_step34, rfl, ?_⟩
  intro hclaim
  have h := hclaim c4s2 c4s3 rfl c4_step23
  simp [c4s2, c4s3] at h

/-- C4 (amended): once the terminating flag is set no further submissions
are accepted and the flag stays set, but workers keep draining: a worker
reaches `exited` only at a step where the flag is set AND the queue is
empty; items still queued when the flag is set are still dequeued and
executed before the workers exit. -/
theorem c4_amended (s s' : PoolState) (h : PoolStep s s') :
    (s.stop = true → s'.stop = true ∧ s'.submitted = s.submitted) ∧
    (∀ i, s.workers.get? i ≠ some .exited →
      s'.workers.get? i = some .exited →
      s.stop = true ∧ s.queue = []) :=
  ⟨fun hstop => poolStep_stop_sticky h hstop,
   fun i hb ha => poolStep_exit_characterisation h i hb ha⟩

/-- C4 (witness): the amended statement applied to the dequeue step taken
after shutdown. -/
theorem c4_witness :
    c4s3.stop = true ∧ c4s3.submitted = c4s2.submitted :=
  (c4_amended c4s2 c4s3 c4_step23).1 rfl

/-- C5: in every reachable pool state the number of workers running an
Engine call is at most the worker count P, the dequeue history followed
by the pending queue is exactly the submission history (FIFO, no drops or
reorders), and in a quiescent state (empty queue, no running worker)
every submitted item has been executed exactly once. -/
theorem c5_bounded_fifo_exactly_once (P : Nat) (s : PoolState)
    (h : PoolReachable P s) :
    (s.workers.filterMap runOf).length ≤ P ∧
    s.submitted = s.started ++ s.queue ∧
    (s.queue = [] → runningItems s = [] →
      ∀ x ∈ s.submitted, s.executed.count x = 1) := by
  obtain ⟨wlen, fifo, ids, conserve⟩ := poolInv_reachable h
  refine ⟨?_, fifo, ?_⟩
  · calc (s.workers.filterMap runOf).length
        ≤ s.workers.length := List.length_filterMap_le _ _
      _ = P := wlen
  · intro hq hr x hx
    have hcount := conserve x
    rw [hr] at hcount
    simp only [List.count_nil, Nat.add_zero] at hcount
    have hsub : s.submitted = s.started := by
      rw [fifo, hq, List.append_nil]
    have hnodup : s.submitted.Nodup := by
      rw [ids]; exact List.nodup_range _
    have hone : s.submitted.count x = 1 :=
      List.count_eq_one_of_mem hnodup hx
    rw [hsub] at hone
    omega

/-- C5 (witness): the theorem applied to the concrete quiescent state
`c4s4`, whose single submitted item was executed exactly once. -/
theorem c5_witness :
    PoolReachable 1 c4s4 ∧ c4s4.executed.count 0 = 1 :=
  ⟨c4_reach4,
   (c5_bounded_fifo_exactly_once 1 c4s4 c4_reach4).2.2 rfl rfl 0 (by decide)⟩

/-- C6: the canonical string of a valid record ends in `'|'` and contains
exactly 9 pipes when the second board is empty, 10 when it is not. -/
theorem c6_serialize_shape (p : RequestParams) (hv : validRecord p) :
    (generateRequestString p).data.getLast? = some '|' ∧
    (generateRequestString p).data.count '|'
      = (if p.secondBoardString = "" then 9 else 10) := by
  constructor
  · rw [generateRequestString_eq_pipeJoin]
    exact getLast_pipeJoin _ (segments_ne_nil p)
  · rw [generateRequestString_eq_pipeJoin,
      count_pipe_pipeJoin _ (segments_no_pipe hv), segments_length]

/-- C6 (witness): the shape facts at a concrete default record. -/
theorem c6_witness :
    validRecord (defaultRecord witBoard) ∧
    (generateRequestString (defaultRecord witBoard)).data.getLast?
      = some '|' :=
  ⟨by decide, (c6_serialize_shape (defaultRecord witBoard) (by decide)).1⟩

/-- C7: splitting the canonical string of a valid record on `'|'` yields
exactly the segment list — board, second board exactly when non-empty,
then the decimal renderings of level, lines, currentPiece, nextPiece, the
timeline, and the renderings of playoutCount, playoutLength,
pruningBreadth — and parsing those tokens back yields the record. -/
theorem c7_roundtrip (p : RequestParams) (hv : validRecord p) :
    splitPipes (generateRequestString p) = segments p ∧
    recordOfTokens (splitPipes (generateRequestString p)) = some p := by
  have h := splitPipes_generateRequestString hv
  exact ⟨h, by rw [h]; exact recordOfTokens_segments⟩

/-- C7 (witness): the round trip at a concrete default record. -/
theorem c7_witness :
    validRecord (defaultRecord witBoard) ∧
    recordOfTokens (splitPipes (generateRequestString (defaultRecord witBoard)))
      = some (defaultRecord witBoard) :=
  ⟨by decide, (c7_roundtrip (defaultRecord witBoard) (by decide)).2⟩

/-- C8: under `requireSecondBoard = false` (the `/top-moves-hybrid`
endpoint) the validated record's second board is empty even when the
client supplied one, so its canonical string has exactly 9 pipes — no
second-board segment. -/
theorem c8_no_second_board (q : Query) (p : RequestParams)
    (h : getParamsFromRequest q false = .ok p) :
    p.secondBoardString = "" ∧
    (generateRequestString p).data.count '|' = 9 := by
  have hspec := getParams_ok_spec h
  have hsb : p.secondBoardString = "" := by simpa using hspec.2.1
  refine ⟨hsb, ?_⟩
  rw [generateRequestString_eq_pipeJoin,
    count_pipe_pipeJoin _ (segments_no_pipe (getParams_ok_valid h)),
    segments_length, if_pos hsb]

/-- C8 (witness): a query that supplies `secondBoard` still validates to
an empty second board on `/top-moves-hybrid`. -/
theorem c8_witness :
    getParamsFromRequest [("board", witBoard), ("secondBoard", witBoard)]
        false = .ok (defaultRecord witBoard) ∧
    (defaultRecord witBoard).secondBoardString = "" :=
  ⟨by decide,
   (c8_no_second_board [("board", witBoard), ("secondBoard", witBoard)]
      (defaultRecord witBoard) (by decide)).1⟩

/-- C9: a query without `board` fails validation with the
missing-parameter error naming `board`, the response is 400, and the pool
is never touched. -/
theorem c9_missing_board (q : Query) (rsb stopped : Bool)
    (eng : String → ExecOutcome) (h : lookupParam q "board" = none) :
    getParamsFromRequest q rsb
      = .error (.runtimeError "Missing required parameter: board") ∧
    (handleRequest q rsb stopped eng).response.status = 400 ∧
    (handleRequest q rsb stopped eng).poolTouched = false := by
  have hv := getParams_missing_board rsb h
  refine ⟨hv, ?_, ?_⟩ <;> (unfold handleRequest; rw [hv])

/-- C9 (witness): the empty query has no board. -/
theorem c9_witness :
    lookupParam [] "board" = none ∧
    (handleRequest [] false false (fun _ => .success "x")).poolTouched
      = false :=
  ⟨rfl, (c9_missing_board [] false false (fun _ => .success "x") rfl).2.2⟩

/-- C10: whenever validation succeeds, the returned record satisfies the
whole constraint table: well-formed board, second board empty (when not
required) or well-formed (when required), level at least 18, lines and
the playout and pruning fields non-negative, both pieces within
[-1, 6], and the timeline over `{X, .}`. -/
theorem c10_validated_record (q : Query) (rsb : Bool) (p : RequestParams)
    (h : getParamsFromRequest q rsb = .ok p) :
    boardOk p.boardString ∧
    (if rsb then boardOk p.secondBoardString
     else p.secondBoardString = "") ∧
    18 ≤ p.level ∧ 0 ≤ p.lines ∧
    (-1 ≤ p.currentPiece ∧ p.currentPiece ≤ 6) ∧
    (-1 ≤ p.nextPiece ∧ p.nextPiece ≤ 6) ∧
    timelineOk p.inputFrameTimeline ∧
    0 ≤ p.playoutCount ∧ 0 ≤ p.playoutLength ∧ 0 ≤ p.pruningBreadth :=
  getParams_ok_spec h

/-- C10 (witness): the constraint table at a concrete validated record. -/
theorem c10_witness :
    getParamsFromRequest [("board", witBoard)] false
      = .ok (defaultRecord witBoard) ∧
    18 ≤ (defaultRecord witBoard).level :=
  ⟨by decide,
   (c10_validated_record [("board", witBoard)] false (defaultRecord witBoard)
      (by decide)).2.2.1⟩

end StackRabbit
